import Mathlib

/-!
Verification development for the snippet/include expansion engine of the
vitepress-plugin-llms repository (file src/markdown/remark-plugins/snippets.ts).

The TypeScript source is regex-driven.  We embed the JavaScript regexes used by
the source as data of a small backtracking regular-expression engine
(`RE` / `reMatch`) with JavaScript semantics for greedy and lazy quantifiers,
capture groups, anchors and word boundaries; each regex of the source file
(`includesRE`, `snippetRE`, `regionRE`, `rangeRE`, `rawPathRegexp`, the region
`markers` table) is transcribed node by node.  File-system access is a finite
map from path strings to contents; `node:path` helpers are modelled for
normalized slash-separated paths; the mutated `includes` array and the logged
warnings are threaded explicitly as a `PState` value.
-/

namespace VPLLMS

/-! ## JavaScript character classes -/

/-- The characters matched by the JavaScript regex class backslash-s
(whitespace), restricted to its ASCII members. -/
def isWsJS (c : Char) : Bool :=
  c == ' ' || c == '\t' || c == '\n' || c == '\r' || c == '\x0b' || c == '\x0c'

/-- The characters matched by the JavaScript regex metacharacter dot
(anything but a line terminator). -/
def isDotJS (c : Char) : Bool :=
  !(c == '\n' || c == '\r')

/-- The characters matched by the JavaScript regex class backslash-d. -/
def isDigitJS (c : Char) : Bool :=
  '0' ≤ c && c ≤ '9'

/-- The characters matched by the JavaScript regex class backslash-w. -/
def isWordJS (c : Char) : Bool :=
  ('a' ≤ c && c ≤ 'z') || ('A' ≤ c && c ≤ 'Z') || isDigitJS c || c == '_'

/-! ## A backtracking regex engine with JavaScript semantics -/

/-- Abstract syntax of the regexes used by the source file.  `star lz r` is
`r*` (lazy when `lz` is true); `group i r` is a capturing group numbered `i`;
`bos`/`eos` are the anchors of a non-multiline regex, `bol`/`eol` those of a
multiline regex; `wb` is a word boundary. -/
inductive RE where
  | eps : RE
  | cls : (Char → Bool) → RE
  | cat : RE → RE → RE
  | alt : RE → RE → RE
  | star : Bool → RE → RE
  | group : Nat → RE → RE
  | bos : RE
  | eos : RE
  | bol : RE
  | eol : RE
  | wb : RE

/-- Capture slots: capture group `i` holds the half-open span of its last
match, or `none` when the group did not participate. -/
abbrev Caps := List (Option (Nat × Nat))

/-- Whether the character at index `i` of `s` is a word character (used for
word boundaries; out-of-range positions are not word characters). -/
def isWordAt (s : List Char) (i : Nat) : Bool :=
  match s.get? i with
  | some c => isWordJS c
  | none => false

/-- Backtracking matcher in continuation-passing style.  `reMatch s fuel re
pos caps k` tries to match `re` at position `pos` of `s`; on success of one
alternative it calls the continuation `k` with the end position and updated
captures, and backtracks when `k` fails.  Greedy operators try the longer
match first, lazy ones the shorter; a starred body that consumes nothing ends
the iteration (as in JavaScript).  `fuel` bounds the recursion depth. -/
def reMatch (s : List Char) :
    Nat → RE → Nat → Caps → (Nat → Caps → Option (Nat × Caps)) → Option (Nat × Caps)
  | 0, _, _, _, _ => none
  | fuel+1, re, pos, caps, k =>
    match re with
    | .eps => k pos caps
    | .cls p =>
      match s.get? pos with
      | some c => if p c then k (pos+1) caps else none
      | none => none
    | .cat a b => reMatch s fuel a pos caps (fun p cs => reMatch s fuel b p cs k)
    | .alt a b =>
      match reMatch s fuel a pos caps k with
      | some r => some r
      | none => reMatch s fuel b pos caps k
    | .star lz a =>
      if lz then
        match k pos caps with
        | some r => some r
        | none =>
          reMatch s fuel a pos caps
            (fun p cs => if p = pos then none else reMatch s fuel (.star lz a) p cs k)
      else
        match reMatch s fuel a pos caps
            (fun p cs => if p = pos then none else reMatch s fuel (.star lz a) p cs k) with
        | some r => some r
        | none => k pos caps
    | .group i a => reMatch s fuel a pos caps (fun p cs => k p (cs.set i (some (pos, p))))
    | .bos => if pos = 0 then k pos caps else none
    | .eos => if pos = s.length then k pos caps else none
    | .bol => if pos = 0 || s.get? (pos - 1) == some '\n' then k pos caps else none
    | .eol => if pos = s.length || s.get? pos == some '\n' then k pos caps else none
    | .wb =>
      if (decide (0 < pos) && isWordAt s (pos - 1)) != isWordAt s pos then k pos caps else none

/-- Fuel that suffices for the regexes of this file on input `s`: the matcher
consumes at most one unit per regex node along a path plus one per star
iteration, both bounded by the pattern size and the input length. -/
def matchFuel (s : List Char) : Nat := 8 * s.length + 200

/-- Try to match `re` exactly at position `pos`, returning the end position
and capture spans. -/
def tryMatchAt (re : RE) (s : List Char) (pos : Nat) : Option (Nat × Caps) :=
  reMatch s (matchFuel s) re pos (List.replicate 8 none) (fun p cs => some (p, cs))

/-- The text of one capture span of `s`. -/
def capString (s : List Char) (c : Option (Nat × Nat)) : Option String :=
  match c with
  | some (a, b) => some (String.mk ((s.drop a).take (b - a)))
  | none => none

/-- Result of a successful regex search: start and end offset, matched text
and the captured substrings (JavaScript `RegExp.exec` result). -/
structure MatchResult where
  mstart : Nat
  mstop : Nat
  whole : String
  caps : List (Option String)
  deriving DecidableEq

/-- Leftmost search from position `pos` on, as JavaScript `exec` does:
try each start position in increasing order. -/
def reExecFrom (re : RE) (s : List Char) : Nat → Nat → Option MatchResult
  | 0, _ => none
  | fuel+1, pos =>
    match tryMatchAt re s pos with
    | some (e, cs) =>
      some ⟨pos, e, String.mk ((s.drop pos).take (e - pos)), cs.map (capString s)⟩
    | none => if pos < s.length then reExecFrom re s fuel (pos+1) else none

/-- Leftmost search starting at offset `pos` of the string `str`. -/
def reExecFromPos (re : RE) (str : String) (pos : Nat) : Option MatchResult :=
  reExecFrom re str.data (str.data.length + 1 - pos) pos

/-- JavaScript `re.exec(str)` (and `str.match(re)` for a non-global regex). -/
def reExec (re : RE) (str : String) : Option MatchResult :=
  reExecFromPos re str 0

/-- JavaScript `re.test(str)` (the source always resets `lastIndex` before
reusing its global regexes, so the test is stateless). -/
def reTest (re : RE) (str : String) : Bool :=
  (reExec re str).isSome

/-- Capture number `i` of an exec result, with the empty-string default the
source applies to missing captures. -/
def capOr (r : MatchResult) (i : Nat) : String :=
  ((r.caps.get? i).getD none).getD ""

/-! ## String helpers modelling the JavaScript string operations

The JavaScript methods the source uses are modelled on the character list of
a string, keeping every definition reducible by evaluation. -/

/-- JavaScript `slice(n)`: drop the first `n` characters. -/
def strDrop (s : String) (n : Nat) : String := String.mk (s.data.drop n)

/-- JavaScript `slice(0, -n)`: drop the last `n` characters (empty when `n`
reaches the length). -/
def strDropRight (s : String) (n : Nat) : String :=
  String.mk (s.data.take (s.data.length - n))

/-- JavaScript `startsWith`. -/
def strStartsWith (s t : String) : Bool := t.data.isPrefixOf s.data

/-- JavaScript `trim`: whitespace stripped from both ends. -/
def strTrim (s : String) : String :=
  String.mk (((s.data.dropWhile isWsJS).reverse.dropWhile isWsJS).reverse)

/-- Splitter on a single separator character, on character lists. -/
def splitCharAux (sep : Char) : List Char → List Char → List (List Char)
  | acc, [] => [acc.reverse]
  | acc, c :: rest =>
    if c = sep then acc.reverse :: splitCharAux sep [] rest
    else splitCharAux sep (c :: acc) rest

/-- JavaScript `split` with a one-character separator string. -/
def splitOnChar (sep : Char) (s : String) : List String :=
  (splitCharAux sep [] s.data).map String.mk

/-- JavaScript `Array.prototype.join` with a separator. -/
def joinWith (sep : String) : List String → String
  | [] => ""
  | [x] => x
  | x :: y :: rest => x ++ sep ++ joinWith sep (y :: rest)

/-- Replace every carriage-return/newline pair by a newline, on character
lists (JavaScript global replace of the two-character sequence). -/
def stripCRLFAux : List Char → List Char
  | [] => []
  | '\r' :: '\n' :: rest => '\n' :: stripCRLFAux rest
  | c :: rest => c :: stripCRLFAux rest

/-- JavaScript `content.replace` of every carriage-return/newline pair by a
newline. -/
def normalizeEOL (s : String) : String := String.mk (stripCRLFAux s.data)

/-! ## Regex notation helpers (plain constructors, no extra syntax) -/

/-- A single literal character. -/
def reChar (c : Char) : RE := .cls (fun x => x == c)

/-- A literal string. -/
def reStr (t : String) : RE := t.data.foldr (fun c r => .cat (reChar c) r) .eps

/-- Sequential composition of a list of regexes. -/
def reCat (l : List RE) : RE := l.foldr .cat .eps

/-- Greedy option (JavaScript `r?`). -/
def reOpt (r : RE) : RE := .alt r .eps

/-- Greedy plus (JavaScript `r+`). -/
def rePlus (r : RE) : RE := .cat r (.star false r)

/-- Lazy plus (JavaScript `r+?`). -/
def reLazyPlus (r : RE) : RE := .cat r (.star true r)

/-- Greedy whitespace star (JavaScript backslash-s star). -/
def wsS : RE := .star false (.cls isWsJS)

/-- Greedy whitespace plus (JavaScript backslash-s plus). -/
def wsP : RE := rePlus (.cls isWsJS)

/-- Lazy dot star (JavaScript `.*?`). -/
def dotLazyS : RE := .star true (.cls isDotJS)

/-! ## The regexes of the source file -/

/-- Source regex `includesRE`: an HTML comment of the form
`<!-- @include: path -->` with the payload captured as group 1. -/
def includesRE : RE :=
  reCat [reStr "<!--", wsS, reStr "@include:", wsS, .group 1 dotLazyS, wsS, reStr "-->"]

/-- Source regex `snippetRE` (multiline): a line `<<< rawpath` with the
payload captured as group 1. -/
def snippetRE : RE :=
  reCat [.bol, reStr "<<<", wsS, .group 1 dotLazyS, .eol]

/-- Source regex `regionRE`: a `#name` token (no whitespace, no opening
brace), captured as group 1. -/
def regionRE : RE :=
  .group 1 (.cat (reChar '#') (rePlus (.cls (fun c => !(isWsJS c || c == '\x7b')))))

/-- Source regex `rangeRE`: a trailing `(digits,digits)` range written with
braces, both numbers optional, anchored at the end of the string. -/
def rangeRE : RE :=
  reCat [reChar '\x7b', .group 1 (.star false (.cls isDigitJS)), reChar ',',
    .group 2 (.star false (.cls isDigitJS)), reChar '\x7d', .eos]

/-- Source regex `rawPathRegexp`, transcribed node by node.  Captures:
1 filepath, 2 extension, 3 region, 4 lines, 5 lang, 6 attrs, 7 title. -/
def rawPathRegexp : RE :=
  reCat [.bos,
    .group 1 (.cat (reLazyPlus (.cls isDotJS))
      (reOpt (.cat (reChar '.')
        (.group 2 (rePlus (.cls (fun c => ('a' ≤ c && c ≤ 'z') || isDigitJS c))))))),
    reOpt (.group 3 (.cat (reChar '#') (rePlus (.cls (fun c => isWordJS c || c == '-'))))),
    reOpt (reCat [reOpt (reChar ' '), reChar '\x7b',
      reOpt (.group 4 (.cat (rePlus (.cls isDigitJS))
        (.star false (.cat (.cls (fun c => c == ',' || c == '-')) (rePlus (.cls isDigitJS)))))),
      reOpt (reChar ' '),
      reOpt (.group 5 (rePlus (.cls (fun c => !(isWsJS c))))),
      reOpt (reChar ' '),
      reOpt (.group 6 (rePlus (.cls (fun c => !(isWsJS c))))),
      reChar '\x7d']),
    reOpt (reChar ' '),
    reOpt (reCat [reChar '[', .group 7 (rePlus (.cls isDotJS)), reChar ']']),
    .eos]

/-- One dialect of the VitePress region-marker table: the field the source
calls `end` is named `stop` here (`end` is a Lean keyword). -/
structure MarkerPair where
  start : RE
  stop : RE

/-- The eight region-marker dialects of the source `markers` table,
transcribed regex by regex in source order. -/
def markers : List MarkerPair := [
  { start := reCat [.bos, wsS, reStr "//", wsS, reOpt (reChar '#'), reStr "region", .wb,
      wsS, .group 1 dotLazyS, wsS, .eos],
    stop := reCat [.bos, wsS, reStr "//", wsS, reOpt (reChar '#'), reStr "endregion", .wb,
      wsS, .group 1 dotLazyS, wsS, .eos] },
  { start := reCat [.bos, wsS, reStr "<!--", wsS, reOpt (reChar '#'), reStr "region", .wb,
      wsS, .group 1 dotLazyS, wsS, reStr "-->"],
    stop := reCat [.bos, wsS, reStr "<!--", wsS, reOpt (reChar '#'), reStr "endregion", .wb,
      wsS, .group 1 dotLazyS, wsS, reStr "-->"] },
  { start := reCat [.bos, wsS, reStr "/*", wsS, reStr "#region", .wb,
      wsS, .group 1 dotLazyS, wsS, reStr "*/"],
    stop := reCat [.bos, wsS, reStr "/*", wsS, reStr "#endregion", .wb,
      wsS, .group 1 dotLazyS, wsS, reStr "*/"] },
  { start := reCat [.bos, wsS, reChar '#', .cls (fun c => c == 'r' || c == 'R'),
      reStr "egion", .wb, wsS, .group 1 dotLazyS, wsS, .eos],
    stop := reCat [.bos, wsS, reChar '#', .cls (fun c => c == 'e' || c == 'E'), reStr "nd",
      reOpt (reChar ' '), .cls (fun c => c == 'r' || c == 'R'), reStr "egion", .wb,
      wsS, .group 1 dotLazyS, wsS, .eos] },
  { start := reCat [.bos, wsS, reChar '#', wsS, reOpt (reChar '#'), reStr "region", .wb,
      wsS, .group 1 dotLazyS, wsS, .eos],
    stop := reCat [.bos, wsS, reChar '#', wsS, reOpt (reChar '#'), reStr "endregion", .wb,
      wsS, .group 1 dotLazyS, wsS, .eos] },
  { start := reCat [.bos, wsS,
      .alt (reStr "--") (.alt (reStr "::") (.cat (reOpt (reChar '@')) (reStr "REM"))), wsS,
      reStr "#region", .wb, wsS, .group 1 dotLazyS, wsS, .eos],
    stop := reCat [.bos, wsS,
      .alt (reStr "--") (.alt (reStr "::") (.cat (reOpt (reChar '@')) (reStr "REM"))), wsS,
      reStr "#endregion", .wb, wsS, .group 1 dotLazyS, wsS, .eos] },
  { start := reCat [.bos, wsS, reStr "#pragma", wsP, reStr "region", .wb,
      wsS, .group 1 dotLazyS, wsS, .eos],
    stop := reCat [.bos, wsS, reStr "#pragma", wsP, reStr "endregion", .wb,
      wsS, .group 1 dotLazyS, wsS, .eos] },
  { start := reCat [.bos, wsS, reStr "(*", wsS, reStr "#region", .wb,
      wsS, .group 1 dotLazyS, wsS, reStr "*)"],
    stop := reCat [.bos, wsS, reStr "(*", wsS, reStr "#endregion", .wb,
      wsS, .group 1 dotLazyS, wsS, reStr "*)"] }]

/-! ## File system and node:path model -/

/-- A finite file system: path/content pairs (model of `node:fs`). -/
structure FS where
  files : List (String × String)

/-- Model of `fs.existsSync`. -/
def FS.existsSync (f : FS) (p : String) : Bool :=
  f.files.any (fun e => e.1 == p)

/-- Model of `fs.readFileSync(p, 'utf-8')` on an existing file. -/
def FS.readFileSync (f : FS) (p : String) : String :=
  ((f.files.find? (fun e => e.1 == p)).map (fun e => e.2)).getD ""

/-- Split a path on the slash separator. -/
def splitSlash (p : String) : List String := splitOnChar '/' p

/-- Segment-stack step for path normalization: empty and dot segments vanish,
a dot-dot segment pops the previous one (node:path normalization). -/
def normalizeStack (acc : List String) (s : String) : List String :=
  if s = "" || s = "." then acc
  else if s = ".." then
    match acc with
    | [] => [".."]
    | t :: rest => if t = ".." then s :: t :: rest else rest
  else s :: acc

/-- Model of node:path normalization on slash-separated paths. -/
def pathNormalize (p : String) : String :=
  let core := joinWith "/" (((splitSlash p).foldl normalizeStack []).reverse)
  if strStartsWith p "/" then "/" ++ core
  else if core = "" then "." else core

/-- Model of `path.join(a, b)`. -/
def pathJoin (a b : String) : String := pathNormalize (a ++ "/" ++ b)

/-- Model of `path.resolve(base, p)` with `base` standing for the directory
the relative resolution starts from. -/
def pathResolve (base p : String) : String :=
  if strStartsWith p "/" then pathNormalize p else pathNormalize (base ++ "/" ++ p)

/-- Model of `path.dirname`. -/
def pathDirname (p : String) : String :=
  let parts := splitSlash p
  if parts.length ≤ 1 then "."
  else
    let d := joinWith "/" parts.dropLast
    if d = "" then "/" else d

/-- Model of `path.extname`: the suffix of the basename from its last dot,
empty for dotfiles and extensionless names. -/
def pathExtname (p : String) : String :=
  let base := ((splitSlash p).getLast?).getD p
  let parts := splitOnChar '.' base
  if parts.length ≤ 1 then ""
  else if parts.length = 2 && parts.headI = "" then ""
  else "." ++ (parts.getLast?).getD ""

/-! ## Line splitting -/

/-- Splitter for the JavaScript `split` on an optional carriage return
followed by a newline, on character lists. -/
def splitLinesRNAux : List Char → List Char → List (List Char)
  | acc, [] => [acc.reverse]
  | acc, '\r' :: '\n' :: rest => acc.reverse :: splitLinesRNAux [] rest
  | acc, '\n' :: rest => acc.reverse :: splitLinesRNAux [] rest
  | acc, c :: rest => splitLinesRNAux (c :: acc) rest

/-- Model of the source's `content.split` on an optional carriage return
followed by a newline. -/
def splitLinesRN (s : String) : List String :=
  (splitLinesRNAux [] s.data).map String.mk

/-! ## Path token parser (`rawPathToToken`) -/

/-- The structured fields `rawPathToToken` extracts from a raw snippet
payload. -/
structure PathTokens where
  filepath : String
  extension : String
  region : String
  lines : String
  lang : String
  attrs : String
  title : String
  deriving DecidableEq

/-- Source function `rawPathToToken`: run `rawPathRegexp` and default every
missing capture to the empty string. -/
def rawPathToToken (rawPath : String) : PathTokens :=
  match reExec rawPathRegexp rawPath with
  | none => ⟨"", "", "", "", "", "", ""⟩
  | some r => ⟨capOr r 1, capOr r 2, capOr r 3, capOr r 4, capOr r 5, capOr r 6, capOr r 7⟩

/-! ## Region locator (`findRegion`) -/

/-- Captured name of a start marker on one line (`re.start.exec(line)?.[1]`):
`none` when the start pattern does not match the line. -/
def startName (mp : MarkerPair) (line : String) : Option String :=
  (reExec mp.start line).bind (fun r => (r.caps.get? 1).getD none)

/-- Captured name of an end marker on one line (`re.end.exec(line)?.[1]`). -/
def endName (mp : MarkerPair) (line : String) : Option String :=
  (reExec mp.stop line).bind (fun r => (r.caps.get? 1).getD none)

/-- The span `findRegion` returns; the source field `end` is named `endIdx`
(`end` is a Lean keyword).  `start` is the first line after the opening
marker, `endIdx` the line of the closing marker. -/
structure RegionData where
  re : MarkerPair
  start : Nat
  endIdx : Nat

/-- First phase of `findRegion`: scan the lines in order and lock onto the
first marker dialect (in table order) whose start pattern captures exactly
the requested name; return it with the index one past the marker line. -/
def findRegionStart (regionName : String) : List String → Nat → Option (MarkerPair × Nat)
  | [], _ => none
  | l :: rest, i =>
    match markers.find? (fun mp => startName mp l == some regionName) with
    | some mp => some (mp, i + 1)
    | none => findRegionStart regionName rest (i + 1)

/-- Second phase of `findRegion`: scan forward from the chosen start,
counting nested same-dialect same-name start markers, decrementing on an end
marker whose captured name matches or is empty, and returning the line of the
end marker that brings the counter to zero. -/
def findRegionScan (mp : MarkerPair) (regionName : String) (rstart : Nat) :
    List String → Nat → Nat → Option RegionData
  | [], _, _ => none
  | l :: rest, i, counter =>
    if startName mp l == some regionName then
      findRegionScan mp regionName rstart rest (i + 1) (counter + 1)
    else
      match endName mp l with
      | some e =>
        if e == regionName || e == "" then
          if counter - 1 = 0 then some ⟨mp, rstart, i⟩
          else findRegionScan mp regionName rstart rest (i + 1) (counter - 1)
        else findRegionScan mp regionName rstart rest (i + 1) counter
      | none => findRegionScan mp regionName rstart rest (i + 1) counter

/-- Source function `findRegion` (the VitePress algorithm). -/
def findRegion (lines : List String) (regionName : String) : Option RegionData :=
  match findRegionStart regionName lines 0 with
  | none => none
  | some (mp, s) => findRegionScan mp regionName s (lines.drop s) s 1

/-! ## Dedent -/

/-- Index of the first character of a line that is neither a space nor a tab
(`none` for a fully-whitespace line). -/
def firstNonWsIdx (line : String) : Option Nat :=
  let rec go : List Char → Nat → Option Nat
    | [], _ => none
    | c :: rest, i => if c = ' ' || c = '\t' then go rest (i + 1) else some i
  go line.data 0

/-- One step of the reduce inside `dedent`: a line with a non-whitespace
character at index `i` lowers the accumulator to `i` (`Math.min(i, acc)` with
`none` modelling the `Infinity` accumulator); a fully-whitespace line leaves
the accumulator unchanged. -/
def dedentStep (acc : Option Nat) (line : String) : Option Nat :=
  match firstNonWsIdx line with
  | some i => some (match acc with | none => i | some a => min i a)
  | none => acc

/-- Source function `dedent`: the reduce over all lines with an infinite
initial accumulator, then strip the minimum indent from every line, or return
the text unchanged when the accumulator never became finite. -/
def dedent (text : String) : String :=
  let lines := splitOnChar '\n' text
  match lines.foldl dedentStep (none : Option Nat) with
  | some k => joinWith "\n" (lines.map (fun x => strDrop x k))
  | none => text

/-! ## Global replace: segmentation of a string by a regex -/

/-- One piece of a string segmented by a global regex: literal text between
matches, or one match with its exec result. -/
inductive Seg where
  | lit : String → Seg
  | dir : MatchResult → Seg
  deriving DecidableEq

/-- Substring of `str` between two offsets. -/
def strExtract (str : String) (a b : Nat) : String :=
  String.mk ((str.data.drop a).take (b - a))

/-- Split `str` from offset `pos` on into literal gaps and regex matches, in
leftmost order, continuing after each match as JavaScript global `replace`
does (an empty match advances by one character). -/
def segmentsFrom (re : RE) (str : String) : Nat → Nat → List Seg
  | 0, pos => [Seg.lit (strExtract str pos str.data.length)]
  | fuel+1, pos =>
    match reExecFromPos re str pos with
    | none => [Seg.lit (strExtract str pos str.data.length)]
    | some r =>
      if r.mstop = r.mstart then
        Seg.lit (strExtract str pos r.mstart) :: Seg.dir r ::
          Seg.lit (strExtract str r.mstart (r.mstart + 1)) ::
          segmentsFrom re str fuel (r.mstart + 1)
      else
        Seg.lit (strExtract str pos r.mstart) :: Seg.dir r ::
          segmentsFrom re str fuel r.mstop

/-- Segmentation of a whole string by a global regex. -/
def segmentsOf (re : RE) (str : String) : List Seg :=
  segmentsFrom re str (str.data.length + 1) 0

/-- State threaded through one document's processing: the `includes`
dependency array the source mutates, and the warnings it logs. -/
structure PState where
  includes : List String
  warnings : List String
  deriving DecidableEq

/-- JavaScript `content.replace(re, cb)` over a segmentation: gaps are kept,
each match is replaced by the callback result, and the state is threaded
left to right. -/
def renderSegs (cb : PState → MatchResult → String × PState) :
    List Seg → PState → String × PState
  | [], st => ("", st)
  | Seg.lit t :: rest, st =>
    let r := renderSegs cb rest st
    (t ++ r.1, r.2)
  | Seg.dir m :: rest, st =>
    let c := cb st m
    let r := renderSegs cb rest c.2
    (c.1 ++ r.1, r.2)

/-! ## Include resolver (`processIncludes`) -/

/-- Numeric value of a nonempty digit string (`parseInt` on the digit-only
strings captured by `rangeRE`). -/
def strToNatDigits (s : String) : Nat :=
  s.data.foldl (fun n c => n * 10 + (c.toNat - 48)) 0

/-- JavaScript `Array.prototype.slice` with optional, possibly negative
bounds. -/
def jsSlice {α : Type} (l : List α) (s e : Option Int) : List α :=
  let n : Int := Int.ofNat l.length
  let conv : Int → Nat := fun i => (if i < 0 then max (n + i) 0 else min i n).toNat
  let a := match s with | none => 0 | some i => conv i
  let b := match e with | none => l.length | some i => conv i
  (l.take b).drop a

/-- The line-range slice of the include resolver: split on optional carriage
return plus newline, slice with a 1-indexed start (when nonempty) and an
exclusive-converted end (when nonempty), rejoin with newlines. -/
def rangeSlice (content startLine endLine : String) : String :=
  let lines := splitLinesRN content
  joinWith "\n" (jsSlice lines
    (if startLine = "" then none else some (Int.ofNat (strToNatDigits startLine) - 1))
    (if endLine = "" then none else some (Int.ofNat (strToNatDigits endLine))))

/-- Models the external gray-matter library as the source uses it: strip a
leading frontmatter block delimited by a first line of three dashes and the
next such line. -/
def matterContent (s : String) : String :=
  match splitOnChar '\n' s with
  | [] => s
  | first :: rest =>
    if first = "---" then
      match rest.findIdx? (fun l => l == "---") with
      | some i => joinWith "\n" (rest.drop (i + 1))
      | none => s
    else s

/-- Meta detection and stripping of the include resolver: match `rangeRE` and
`regionRE` against the payload and, when either matched, drop their combined
matched length from the tail of the payload. -/
def stripRegionRange (m1 : String) : String × Option MatchResult × Option MatchResult :=
  let range := reExec rangeRE m1
  let region := reExec regionRE m1
  if region.isSome || range.isSome then
    (strDropRight m1 (((region.map (fun r => r.whole.length)).getD 0) +
      ((range.map (fun r => r.whole.length)).getD 0)), range, region)
  else (m1, range, region)

/-- Include path resolution: a payload starting with the at sign resolves
against the source root (skipping an optional slash after it), anything else
against the including document's directory. -/
def resolveIncludePath (srcDir filePath m1 : String) : String :=
  if m1.data.head? == some '@' then
    pathJoin srcDir (strDrop m1 (if m1.data.get? 1 == some '/' then 2 else 1))
  else pathJoin (pathDirname filePath) m1

/-- Warning the include resolver logs for a missing target. -/
def includeWarnMissing (m1 : String) : String :=
  "[remark-include] Include file not found: " ++ m1

/-- Warning the include resolver logs for a region it cannot locate. -/
def regionWarnMsg (regionName includePath : String) : String :=
  "[remark-include] Region '" ++ regionName ++ "' not found in " ++ includePath

/-- Content transformation of a resolved include target: region extraction
first (warning when the region is not found), then the line-range slice, then
frontmatter stripping for markdown files without meta.  Returns the content
together with the warnings logged. -/
def includeExpand (f : FS) (stripFm : Bool) (includePath : String)
    (region range : Option MatchResult) (hasMeta : Bool) : String × List String :=
  let raw := f.readFileSync includePath
  let rr :=
    match region with
    | none => (raw, ([] : List String))
    | some rg =>
      let lines := splitLinesRN raw
      match findRegion lines (strDrop rg.whole 1) with
      | some rd =>
        (joinWith "\n" ((lines.drop rd.start).take (rd.endIdx - rd.start)),
          ([] : List String))
      | none => (raw, [regionWarnMsg rg.whole includePath])
  let c2 :=
    match range with
    | some r => rangeSlice rr.1 (capOr r 1) (capOr r 2)
    | none => rr.1
  let c3 :=
    if !hasMeta && pathExtname includePath == ".md" && stripFm then matterContent c2 else c2
  (c3, rr.2)

/-- The content an include directive with payload `m1` expands to before the
recursive pass (meta stripping, resolution, read, region, range,
frontmatter). -/
def includeContentOf (f : FS) (srcDir filePath : String) (stripFm : Bool) (m1 : String) :
    String :=
  let srr := stripRegionRange m1
  (includeExpand f stripFm (resolveIncludePath srcDir filePath srr.1) srr.2.2 srr.2.1
    (srr.2.2.isSome || srr.2.1.isSome)).1

/-- The replace callback of `processIncludes` for one matched directive:
`m` is the whole match, `m1` the captured payload, `next` the recursive
processing of the expanded content.  A missing target logs a warning and
returns the match unchanged with no dependency recorded. -/
def includeStep (f : FS) (srcDir filePath : String) (stripFm : Bool)
    (next : String → PState → String × PState) (st : PState) (m m1 : String) :
    String × PState :=
  if m1.length = 0 then (m, st) else
  let srr := stripRegionRange m1
  let m1s := srr.1
  let range := srr.2.1
  let region := srr.2.2
  let hasMeta := region.isSome || range.isSome
  let includePath := resolveIncludePath srcDir filePath m1s
  if f.existsSync includePath then
    let ex := includeExpand f stripFm includePath region range hasMeta
    next ex.1 { includes := st.includes ++ [includePath], warnings := st.warnings ++ ex.2 }
  else
    (m, { st with warnings := st.warnings ++ [includeWarnMissing m1s] })

/-- Source function `processIncludes`: replace every include directive of the
content, recursing (fuel-bounded; the source recursion is unbounded and
terminates on acyclic include graphs) into the expanded content. -/
def processIncludes (f : FS) (srcDir filePath : String) (stripFm : Bool) :
    Nat → String → PState → String × PState
  | 0, content, st => (content, st)
  | fuel+1, content, st =>
    renderSegs
      (fun st r =>
        includeStep f srcDir filePath stripFm
          (processIncludes f srcDir filePath stripFm fuel) st r.whole (capOr r 1))
      (segmentsOf includesRE content) st

/-! ## Snippet resolver (`processSnippets`) -/

/-- Warning the snippet resolver logs for a missing target. -/
def snippetWarnMissing (rawPath : String) : String :=
  "[remark-include] Snippet file not found: " ++ rawPath

/-- Snippet region extraction: when a region token is present and found, keep
its line span, drop every line matching the dialect's start or end pattern,
and dedent; otherwise the full content. -/
def applySnippetRegion (raw region : String) : String :=
  if region = "" then raw else
  let contentLines := splitOnChar '\n' raw
  match findRegion contentLines (strDrop region 1) with
  | some rd =>
    dedent (joinWith "\n"
      (((contentLines.drop rd.start).take (rd.endIdx - rd.start)).filter
        (fun l => !(reTest rd.re.start l || reTest rd.re.stop l))))
  | none => raw

/-- Body of the fenced block a snippet directive emits: the file content with
line endings normalized, after region extraction. -/
def snippetBody (f : FS) (snippetPath region : String) : String :=
  applySnippetRegion (normalizeEOL (f.readFileSync snippetPath)) region

/-- Info string of the emitted fenced block: language or extension, then the
brace-wrapped line spec when present, then the bracketed title when present,
then a space and the attributes when present, trimmed. -/
def buildInfo (tok : PathTokens) : String :=
  strTrim ((if tok.lang = "" then tok.extension else tok.lang) ++
    (if tok.lines = "" then "" else "\x7b" ++ tok.lines ++ "\x7d") ++
    (if tok.title = "" then "" else "[" ++ tok.title ++ "]") ++
    (if tok.attrs = "" then "" else " " ++ tok.attrs))

/-- Path a snippet directive resolves to: at-prefixed payloads against the
source root, others against the including document's directory. -/
def snippetPathOf (srcDir filePath : String) (atPresent : Bool) (tok : PathTokens) : String :=
  if atPresent then pathJoin srcDir tok.filepath
  else pathResolve (pathDirname filePath) tok.filepath

/-- Emission phase of the snippet callback, after payload parsing: resolve
the path, and either emit the fenced block and record the dependency, or log
a warning and return the match unchanged. -/
def snippetRender (f : FS) (srcDir filePath : String) (st : PState) (m rawPath : String)
    (atPresent : Bool) (tok : PathTokens) : String × PState :=
  let snippetPath := snippetPathOf srcDir filePath atPresent tok
  if f.existsSync snippetPath then
    ("```" ++ buildInfo tok ++ "\n" ++ snippetBody f snippetPath tok.region ++ "\n```",
      { st with includes := st.includes ++ [snippetPath] })
  else
    (m, { st with warnings := st.warnings ++ [snippetWarnMissing rawPath] })

/-- The replace callback of `processSnippets` for one matched snippet line:
trim the payload, strip a leading at sign, parse the rest with
`rawPathToToken`, then render. -/
def snippetStep (f : FS) (srcDir filePath : String) (st : PState) (m rawPath : String) :
    String × PState :=
  if rawPath.length = 0 then (m, st) else
  let cleanPath := strTrim rawPath
  let atPresent := strStartsWith cleanPath "@"
  let pathToParse := if atPresent then strDrop cleanPath 1 else cleanPath
  snippetRender f srcDir filePath st m rawPath atPresent (rawPathToToken pathToParse)

/-- Source function `processSnippets`: replace every snippet line of the
content; snippet output is never re-expanded. -/
def processSnippets (f : FS) (srcDir filePath : String) (content : String) (st : PState) :
    String × PState :=
  renderSegs (fun st r => snippetStep f srcDir filePath st r.whole (capOr r 1))
    (segmentsOf snippetRE content) st

/-! ## Document walker (`remarkInclude`) -/

/-- Document nodes as the walker distinguishes them: raw HTML nodes (where
include comments live), text nodes (where snippet lines live), and anything
else. -/
inductive MNode where
  | html : String → MNode
  | text : String → MNode
  | other : MNode
  deriving DecidableEq

/-- Per-node dispatch of the walker: HTML nodes whose value matches the
include pattern are processed and, when changed, replaced by the re-parsed
content (the external `fromMarkdown` splice is modelled as a raw node holding
the processed value); text nodes matching the snippet pattern are replaced by
an HTML node holding the fenced block. -/
def remarkIncludeNode (f : FS) (srcDir : String) (stripFm : Bool) (filePath : String)
    (fuel : Nat) (st : PState) (n : MNode) : MNode × PState :=
  match n with
  | .html v =>
    if reTest includesRE v then
      let pr := processIncludes f srcDir filePath stripFm fuel v st
      ((if pr.1 ≠ v then .html pr.1 else .html v), pr.2)
    else (.html v, st)
  | .text v =>
    if reTest snippetRE v then
      let pr := processSnippets f srcDir filePath v st
      ((if pr.1 ≠ v then .html pr.1 else .text v), pr.2)
    else (.text v, st)
  | .other => (.other, st)

/-- The walker's traversal over the document's nodes in order (the unist
visit linearized), threading the dependency state. -/
def remarkIncludeWalk (f : FS) (srcDir : String) (stripFm : Bool) (filePath : String)
    (fuel : Nat) : List MNode → PState → List MNode × PState
  | [], st => ([], st)
  | n :: rest, st =>
    let r1 := remarkIncludeNode f srcDir stripFm filePath fuel st n
    let r2 := remarkIncludeWalk f srcDir stripFm filePath fuel rest r1.2
    (r1.1 :: r2.1, r2.2)

/-- Source plugin `remarkInclude` on one document: walk the nodes starting
from an empty dependency list and attach the accumulated `includes` to the
document (the returned list models `file.data.includes`). -/
def remarkInclude (f : FS) (srcDir : String) (stripFm : Bool) (fuel : Nat)
    (filePath : String) (doc : List MNode) : List MNode × List String :=
  let r := remarkIncludeWalk f srcDir stripFm filePath fuel doc ⟨[], []⟩
  (r.1, r.2.includes)

/-! ## Derived resolution helpers used by theorem statements -/

/-- The path a snippet directive with payload `rawPath` resolves to (the
composition of trimming, at-sign handling, token parsing and path
resolution performed by `snippetStep`). -/
def snippetResolvedPath (srcDir filePath rawPath : String) : String :=
  let cleanPath := strTrim rawPath
  let atPresent := strStartsWith cleanPath "@"
  snippetPathOf srcDir filePath atPresent
    (rawPathToToken (if atPresent then strDrop cleanPath 1 else cleanPath))

/-! ## Specification-side definitions

These definitions transcribe claim sentences of the specification, to be
compared with the source-side definitions above. -/

/-- Index of the first list element satisfying a predicate. -/
def firstIdxWhere {α : Type} (p : α → Bool) : List α → Option Nat
  | [] => none
  | x :: xs => if p x then some 0 else (firstIdxWhere p xs).map (fun i => i + 1)

/-- Scan phase of the region locator as the claim words it, over lines paired
with their absolute indices: a later start marker of the same dialect with
the same name increments the nesting counter, an end marker of the same
dialect whose captured name matches or is empty (a wildcard closer)
decrements it, and the region is found exactly when the counter reaches
zero; with no closing marker the region is not found. -/
def findRegionSpecScan (mp : MarkerPair) (name : String) (rstart : Nat) :
    List (Nat × String) → Nat → Option RegionData
  | [], _ => none
  | (i, l) :: rest, counter =>
    if startName mp l == some name then
      findRegionSpecScan mp name rstart rest (counter + 1)
    else if endName mp l == some name || endName mp l == some "" then
      if counter = 1 then some ⟨mp, rstart, i⟩
      else findRegionSpecScan mp name rstart rest (counter - 1)
    else findRegionSpecScan mp name rstart rest counter

/-- The region locator as the claim words it: the start index is one past the
first line carrying a start marker of any supported dialect whose captured
name equals the target (the dialect locked in is the first matching one of
the table), and the end index comes from the counter scan over the remaining
lines. -/
def findRegionSpec (lines : List String) (name : String) : Option RegionData :=
  match firstIdxWhere
      (fun l => (markers.find? (fun mp => startName mp l == some name)).isSome) lines with
  | none => none
  | some i =>
    match (lines.get? i).bind (fun l => markers.find? (fun mp => startName mp l == some name)) with
    | none => none
    | some mp =>
      findRegionSpecScan mp name (i + 1) (List.enumFrom (i + 1) (lines.drop (i + 1))) 1

/-- The dedent the claim describes: every line participates in the minimum,
a fully-whitespace line through its own indent length; the text is unchanged
when no line has a non-whitespace character. -/
def dedentClaimed (text : String) : String :=
  let lines := splitOnChar '\n' text
  if lines.all (fun l => (firstNonWsIdx l).isNone) then text
  else
    match lines.map (fun l => (firstNonWsIdx l).getD l.length) with
    | [] => text
    | i :: is => joinWith "\n" (lines.map (fun x => strDrop x (is.foldl min i)))

/-- The dedent of the amended claim: the minimum is over the leading
whitespace counts of the lines that contain a non-whitespace character
(fully-whitespace lines do not constrain it); unchanged when no such line
exists. -/
def dedentAmended (text : String) : String :=
  let lines := splitOnChar '\n' text
  match lines.filterMap firstNonWsIdx with
  | [] => text
  | i :: is => joinWith "\n" (lines.map (fun x => strDrop x (is.foldl min i)))

/-! ## Concrete fixtures used by example conjuncts and witnesses -/

/-- A file system with one five-line JavaScript file. -/
def fsFive : FS := ⟨[("docs/example.js", "l1\nl2\nl3\nl4\nl5")]⟩

/-- A file system with a text file containing a named region on lines 3-6. -/
def fsRegionRange : FS :=
  ⟨[("docs/f.txt", "one\ntwo\n// #region r\nAAA\nBBB\n// #endregion r\nsix")]⟩

/-- A file system with one extensionless one-line file. -/
def fsPlain : FS := ⟨[("docs/path", "CONTENT")]⟩

/-- A file system with a two-line markdown file containing no region. -/
def fsTwoLines : FS := ⟨[("docs/g.md", "hello\nworld")]⟩

/-- A file system where `a.md` includes `b.md`. -/
def fsNested : FS :=
  ⟨[("docs/a.md", "A-pre <!--@include: ./b.md--> A-post"), ("docs/b.md", "B-content")]⟩

/-- The empty initial processing state. -/
def st0 : PState := ⟨[], []⟩

/-! ## Helper lemmas -/

theorem string_length_ne_zero {s : String} (h : s ≠ "") : ¬ s.length = 0 := by
  intro h0
  apply h
  cases s with
  | mk l =>
    cases List.length_eq_zero.mp h0
    rfl

/-- A missing include target returns the match unchanged, logs the warning
naming the stripped payload, and records no dependency. -/
theorem includeStep_missing (f : FS) (srcDir filePath : String) (stripFm : Bool)
    (next : String → PState → String × PState) (st : PState) (m m1 : String)
    (hm : m1 ≠ "")
    (hex : f.existsSync (resolveIncludePath srcDir filePath (stripRegionRange m1).1) = false) :
    includeStep f srcDir filePath stripFm next st m m1 =
      (m, ⟨st.includes, st.warnings ++ [includeWarnMissing (stripRegionRange m1).1]⟩) := by
  have hlen := string_length_ne_zero hm
  simp only [includeStep, hlen, if_false, hex, Bool.false_eq_true]

/-- A missing snippet target returns the match unchanged, logs the warning
naming the raw payload, and records no dependency. -/
theorem snippetStep_missing (f : FS) (srcDir filePath : String) (st : PState)
    (m rawPath : String) (hm : rawPath ≠ "")
    (hex : f.existsSync (snippetResolvedPath srcDir filePath rawPath) = false) :
    snippetStep f srcDir filePath st m rawPath =
      (m, ⟨st.includes, st.warnings ++ [snippetWarnMissing rawPath]⟩) := by
  have hlen := string_length_ne_zero hm
  simp only [snippetStep, snippetRender, hlen, if_false]
  simp only [snippetResolvedPath] at hex
  simp only [hex, Bool.false_eq_true, if_false]

/-- Rendering preserves membership in the dependency list when the callback
does. -/
theorem renderSegs_includes_mono (cb : PState → MatchResult → String × PState)
    (hcb : ∀ st r x, x ∈ st.includes → x ∈ (cb st r).2.includes) :
    ∀ (segs : List Seg) (st : PState) (x : String),
      x ∈ st.includes → x ∈ (renderSegs cb segs st).2.includes := by
  intro segs
  induction segs with
  | nil => intro st x hx; simpa [renderSegs] using hx
  | cons sg rest ih =>
    intro st x hx
    cases sg with
    | lit t => simpa [renderSegs] using ih st x hx
    | dir r => simpa [renderSegs] using ih _ x (hcb st r x hx)

/-- The include callback preserves membership in the dependency list when the
recursive continuation does. -/
theorem includeStep_includes_mono (f : FS) (srcDir filePath : String) (stripFm : Bool)
    (next : String → PState → String × PState)
    (hnext : ∀ c st x, x ∈ st.includes → x ∈ (next c st).2.includes) :
    ∀ (st : PState) (m m1 x : String),
      x ∈ st.includes → x ∈ (includeStep f srcDir filePath stripFm next st m m1).2.includes := by
  intro st m m1 x hx
  simp only [includeStep]
  by_cases h0 : m1.length = 0
  · simpa [h0] using hx
  · simp only [h0, if_false]
    by_cases hex :
        f.existsSync (resolveIncludePath srcDir filePath (stripRegionRange m1).1) = true
    · simp only [hex, if_true]
      exact hnext _ _ x (by simp [hx])
    · simp only [Bool.not_eq_true] at hex
      simpa [hex] using hx

/-- The snippet callback preserves membership in the dependency list. -/
theorem snippetStep_includes_mono (f : FS) (srcDir filePath : String) :
    ∀ (st : PState) (m rawPath x : String),
      x ∈ st.includes → x ∈ (snippetStep f srcDir filePath st m rawPath).2.includes := by
  intro st m rawPath x hx
  simp only [snippetStep, snippetRender]
  by_cases h0 : rawPath.length = 0
  · simpa [h0] using hx
  · simp only [h0, if_false]
    by_cases hex : f.existsSync (snippetResolvedPath srcDir filePath rawPath) = true
    · simp only [snippetResolvedPath] at hex
      simpa [hex] using Or.inl hx
    · simp only [snippetResolvedPath, Bool.not_eq_true] at hex
      simpa [hex] using hx

/-- The include resolver only grows the dependency list. -/
theorem processIncludes_includes_mono (f : FS) (srcDir filePath : String) (stripFm : Bool) :
    ∀ (fuel : Nat) (content : String) (st : PState) (x : String),
      x ∈ st.includes →
      x ∈ (processIncludes f srcDir filePath stripFm fuel content st).2.includes := by
  intro fuel
  induction fuel with
  | zero => intro c st x hx; simpa [processIncludes] using hx
  | succ n ih =>
    intro c st x hx
    simp only [processIncludes]
    exact renderSegs_includes_mono _
      (fun st r x hx =>
        includeStep_includes_mono f srcDir filePath stripFm _
          (fun c st x hx => ih c st x hx) st _ _ x hx) _ st x hx

/-- The snippet resolver only grows the dependency list. -/
theorem processSnippets_includes_mono (f : FS) (srcDir filePath : String) :
    ∀ (content : String) (st : PState) (x : String),
      x ∈ st.includes → x ∈ (processSnippets f srcDir filePath content st).2.includes := by
  intro c st x hx
  simp only [processSnippets]
  exact renderSegs_includes_mono _
    (fun st r x hx => snippetStep_includes_mono f srcDir filePath st _ _ x hx) _ st x hx

/-- If a match occurs in the segmentation and the callback always records the
path `p` on that match, the rendered state contains `p`. -/
theorem renderSegs_dir_includes (cb : PState → MatchResult → String × PState)
    (hcb : ∀ st r x, x ∈ st.includes → x ∈ (cb st r).2.includes)
    (r : MatchResult) (p : String) (hpush : ∀ st, p ∈ (cb st r).2.includes) :
    ∀ (segs : List Seg) (st : PState),
      Seg.dir r ∈ segs → p ∈ (renderSegs cb segs st).2.includes := by
  intro segs
  induction segs with
  | nil => intro st h; cases h
  | cons sg rest ih =>
    intro st h
    cases sg with
    | lit t =>
      have hmem : Seg.dir r ∈ rest := by
        cases h with
        | tail _ h => exact h
      simpa [renderSegs] using ih st hmem
    | dir mr =>
      rcases List.mem_cons.mp h with heq | hmem
      · cases heq
        simpa [renderSegs] using
          renderSegs_includes_mono cb hcb rest _ p (hpush st)
      · simpa [renderSegs] using ih _ hmem

/-- If a match occurs in the segmentation and the callback always replaces it
by the text `w`, the rendered output contains `w`. -/
theorem renderSegs_dir_output (cb : PState → MatchResult → String × PState)
    (r : MatchResult) (w : String) (hrep : ∀ st, (cb st r).1 = w) :
    ∀ (segs : List Seg) (st : PState),
      Seg.dir r ∈ segs →
      ∃ pre post : List Char, (renderSegs cb segs st).1.data = pre ++ w.data ++ post := by
  intro segs
  induction segs with
  | nil => intro st h; cases h
  | cons sg rest ih =>
    intro st h
    cases sg with
    | lit t =>
      have hmem : Seg.dir r ∈ rest := by
        cases h with
        | tail _ h => exact h
      rcases ih st hmem with ⟨pre, post, hp⟩
      refine ⟨t.data ++ pre, post, ?_⟩
      simp [renderSegs, String.data_append, hp, List.append_assoc]
    | dir mr =>
      rcases List.mem_cons.mp h with heq | hmem
      · cases heq
        refine ⟨[], ((renderSegs cb rest (cb st r).2).1).data, ?_⟩
        simp [renderSegs, String.data_append, hrep st]
      · rcases ih (cb st mr).2 hmem with ⟨pre, post, hp⟩
        refine ⟨((cb st mr).1).data ++ pre, post, ?_⟩
        simp [renderSegs, String.data_append, hp, List.append_assoc]

/-- A match in the segmentation means the regex tests positive on the whole
string. -/
theorem seg_dir_reTest {re : RE} {s : String} {r : MatchResult}
    (h : Seg.dir r ∈ segmentsOf re s) : reTest re s = true := by
  unfold segmentsOf at h
  cases hx : reExecFromPos re s 0 with
  | none =>
    simp only [segmentsFrom, hx] at h
    rcases List.mem_singleton.mp h with h
    cases h
  | some mr => simp [reTest, reExec, hx]

/-- The success path of the include callback: an existing target is read,
expanded (region, range, frontmatter), recorded under the path resolved from
the stripped payload, and handed to the recursive continuation. -/
theorem includeStep_exists (f : FS) (srcDir filePath : String) (stripFm : Bool)
    (next : String → PState → String × PState) (st : PState) (m m1 : String)
    (hm : m1 ≠ "")
    (hex : f.existsSync (resolveIncludePath srcDir filePath (stripRegionRange m1).1) = true) :
    includeStep f srcDir filePath stripFm next st m m1 =
      next (includeContentOf f srcDir filePath stripFm m1)
        ⟨st.includes ++ [resolveIncludePath srcDir filePath (stripRegionRange m1).1],
          st.warnings ++
            (includeExpand f stripFm
              (resolveIncludePath srcDir filePath (stripRegionRange m1).1)
              (stripRegionRange m1).2.2 (stripRegionRange m1).2.1
              ((stripRegionRange m1).2.2.isSome || (stripRegionRange m1).2.1.isSome)).2⟩ := by
  have hlen := string_length_ne_zero hm
  simp only [includeStep, includeContentOf, hlen, if_false, hex, if_true]

/-! ## Claim theorems -/

/-- Claim C7: for every snippet directive over an existing file, the fenced
block's info string uses the explicit language token when given and otherwise
the file's extension, assembled in the fixed order `lang{lines}[title] attrs`;
the payload `path#region{1,5 lang attrs}[title]` emits the info string
`lang{1,5}[title] attrs`, and an absent language token defaults to the file
extension. -/
theorem claim_C7 :
    (∀ tok : PathTokens, tok.lang ≠ "" →
      buildInfo tok =
        strTrim (tok.lang ++ (if tok.lines = "" then "" else "\x7b" ++ tok.lines ++ "\x7d") ++
          (if tok.title = "" then "" else "[" ++ tok.title ++ "]") ++
          (if tok.attrs = "" then "" else " " ++ tok.attrs))) ∧
    (∀ tok : PathTokens, tok.lang = "" →
      buildInfo tok =
        strTrim (tok.extension ++ (if tok.lines = "" then "" else "\x7b" ++ tok.lines ++ "\x7d") ++
          (if tok.title = "" then "" else "[" ++ tok.title ++ "]") ++
          (if tok.attrs = "" then "" else " " ++ tok.attrs))) ∧
    (processSnippets fsPlain "docs" "docs/guide.md"
        "<<< path#region{1,5 lang attrs}[title]" st0 =
      ("```lang{1,5}[title] attrs\nCONTENT\n```", ⟨["docs/path"], []⟩)) ∧
    (processSnippets fsFive "docs" "docs/guide.md" "<<< ./example.js" st0 =
      ("```js\nl1\nl2\nl3\nl4\nl5\n```", ⟨["docs/example.js"], []⟩)) := by
  refine ⟨?_, ?_, by decide, by decide⟩
  · intro tok h
    simp [buildInfo, h]
  · intro tok h
    simp [buildInfo, h]

/-- Witness for claim C7 at a concrete token record. -/
theorem claim_C7_witness :
    buildInfo ⟨"f", "ext", "", "1,5", "lang", "attrs", "title"⟩ =
      strTrim ("lang" ++ "\x7b" ++ "1,5" ++ "\x7d" ++ "[" ++ "title" ++ "]" ++ " " ++ "attrs") := by
  have h := claim_C7.1 ⟨"f", "ext", "", "1,5", "lang", "attrs", "title"⟩ (by decide)
  simpa using h

/-- Claim C8: for every include payload, the meta found by the two
independent sub-patterns (the anchored trailing range of `rangeRE` and the
region token of `regionRE`) is removed by stripping the combined matched
length from the tail of the payload; without a match the payload is
untouched; the dependency of an existing target is recorded under the path
resolved from the stripped payload. -/
theorem claim_C8 :
    (∀ (m1 : String) (rg rr : MatchResult),
      reExec regionRE m1 = some rg → reExec rangeRE m1 = some rr →
      stripRegionRange m1 =
        (strDropRight m1 (rg.whole.length + rr.whole.length), some rr, some rg)) ∧
    (∀ (m1 : String) (rg : MatchResult),
      reExec regionRE m1 = some rg → reExec rangeRE m1 = none →
      stripRegionRange m1 = (strDropRight m1 rg.whole.length, none, some rg)) ∧
    (∀ (m1 : String) (rr : MatchResult),
      reExec regionRE m1 = none → reExec rangeRE m1 = some rr →
      stripRegionRange m1 = (strDropRight m1 rr.whole.length, some rr, none)) ∧
    (∀ m1 : String,
      reExec regionRE m1 = none → reExec rangeRE m1 = none →
      stripRegionRange m1 = (m1, none, none)) ∧
    (∀ (f : FS) (srcDir filePath : String) (stripFm : Bool)
      (next : String → PState → String × PState) (st : PState) (m m1 : String),
      m1 ≠ "" →
      f.existsSync (resolveIncludePath srcDir filePath (stripRegionRange m1).1) = true →
      (includeStep f srcDir filePath stripFm next st m m1).2 =
        (next (includeContentOf f srcDir filePath stripFm m1)
          ⟨st.includes ++ [resolveIncludePath srcDir filePath (stripRegionRange m1).1],
            st.warnings ++
              (includeExpand f stripFm
                (resolveIncludePath srcDir filePath (stripRegionRange m1).1)
                (stripRegionRange m1).2.2 (stripRegionRange m1).2.1
                ((stripRegionRange m1).2.2.isSome ||
                  (stripRegionRange m1).2.1.isSome)).2⟩).2) ∧
    ((stripRegionRange "./a.md#foo{1,2}").1 = "./a.md") := by
  refine ⟨?_, ?_, ?_, ?_, ?_, by decide⟩
  · intro m1 rg rr hrg hrr
    simp [stripRegionRange, hrg, hrr]
  · intro m1 rg hrg hrr
    simp [stripRegionRange, hrg, hrr]
  · intro m1 rr hrg hrr
    simp [stripRegionRange, hrg, hrr]
  · intro m1 hrg hrr
    simp [stripRegionRange, hrg, hrr]
  · intro f srcDir filePath stripFm next st m m1 hm hex
    rw [includeStep_exists f srcDir filePath stripFm next st m m1 hm hex]

/-- Witness for claim C8 at the concrete payload carrying both a region
token and a trailing range. -/
theorem claim_C8_witness :
    stripRegionRange "./a.md#foo{1,2}" =
      (strDropRight "./a.md#foo{1,2}"
          ((⟨6, 10, "#foo", [none, some "#foo", none, none, none, none, none, none]⟩ :
              MatchResult).whole.length +
            (⟨10, 15, "{1,2}", [none, some "1", some "2", none, none, none, none, none]⟩ :
              MatchResult).whole.length),
        some ⟨10, 15, "{1,2}", [none, some "1", some "2", none, none, none, none, none]⟩,
        some ⟨6, 10, "#foo", [none, some "#foo", none, none, none, none, none, none]⟩) :=
  claim_C8.1 "./a.md#foo{1,2}"
    ⟨6, 10, "#foo", [none, some "#foo", none, none, none, none, none, none]⟩
    ⟨10, 15, "{1,2}", [none, some "1", some "2", none, none, none, none, none]⟩
    (by decide) (by decide)

/-- Claim C9, counterexample: on the text built of a one-space line and a
line of two spaces then text, the source dedent strips two characters from
every line, while the claimed dedent (fully-whitespace lines participating in
the minimum through their own length) would strip one. -/
theorem claim_C9_cex :
    dedent " \n  ab" = "\nab" ∧ dedentClaimed " \n  ab" = "\n ab" ∧
      dedent " \n  ab" ≠ dedentClaimed " \n  ab" := by
  refine ⟨by decide, by decide, by decide⟩

/-- The reduce of `dedent` computes the minimum of the first non-whitespace
indices over the lines possessing one, merged into the incoming
accumulator. -/
theorem dedent_fold_eq (ls : List String) :
    ∀ acc : Option Nat,
      ls.foldl dedentStep acc =
        match acc, ls.filterMap firstNonWsIdx with
        | none, [] => none
        | none, i :: is => some (is.foldl min i)
        | some a, js => some (js.foldl min a) := by
  induction ls with
  | nil => intro acc; cases acc <;> rfl
  | cons l rest ih =>
    intro acc
    cases h : firstNonWsIdx l with
    | none =>
      cases acc <;>
        simp only [List.foldl_cons, List.filterMap_cons, h, dedentStep, ih]
    | some i =>
      cases acc with
      | none =>
        simp only [List.foldl_cons, List.filterMap_cons, h, dedentStep, ih]
      | some a =>
        simp only [List.foldl_cons, List.filterMap_cons, h, dedentStep, ih,
          List.foldl_cons]
        rw [Nat.min_comm i a]

/-- Claim C9, amended: `dedent` computes the minimum leading-whitespace count
over the lines that contain a non-whitespace character (a fully-whitespace
line does not constrain the minimum), strips that many characters from every
line and rejoins with newline, and returns the input unchanged when no line
contains a non-whitespace character. -/
theorem claim_C9 : ∀ text : String, dedent text = dedentAmended text := by
  intro text
  simp only [dedent, dedentAmended, dedent_fold_eq]
  cases h : (splitOnChar '\n' text).filterMap firstNonWsIdx with
  | nil => simp [h]
  | cons i is => simp [h]


/-- Claim C1: an include or snippet directive whose resolved target does not
exist is returned byte-identical (the whole match `m` is the replacement and
so occurs in the processed output), a warning naming the directive's path
payload is logged, and nothing is appended to the dependency list. -/
theorem claim_C1 :
    (∀ (f : FS) (srcDir filePath : String) (stripFm : Bool)
      (next : String → PState → String × PState) (st : PState) (m m1 : String),
      m1 ≠ "" →
      f.existsSync (resolveIncludePath srcDir filePath (stripRegionRange m1).1) = false →
      includeStep f srcDir filePath stripFm next st m m1 =
        (m, ⟨st.includes, st.warnings ++ [includeWarnMissing (stripRegionRange m1).1]⟩)) ∧
    (∀ (f : FS) (srcDir filePath : String) (st : PState) (m rawPath : String),
      rawPath ≠ "" →
      f.existsSync (snippetResolvedPath srcDir filePath rawPath) = false →
      snippetStep f srcDir filePath st m rawPath =
        (m, ⟨st.includes, st.warnings ++ [snippetWarnMissing rawPath]⟩)) ∧
    (∀ (f : FS) (srcDir filePath : String) (stripFm : Bool) (fuel : Nat)
      (content : String) (st : PState) (r : MatchResult),
      Seg.dir r ∈ segmentsOf includesRE content →
      f.existsSync
        (resolveIncludePath srcDir filePath (stripRegionRange (capOr r 1)).1) = false →
      ∃ pre post : List Char,
        (processIncludes f srcDir filePath stripFm (fuel + 1) content st).1.data =
          pre ++ r.whole.data ++ post) ∧
    (∀ (f : FS) (srcDir filePath : String) (content : String) (st : PState)
      (r : MatchResult),
      Seg.dir r ∈ segmentsOf snippetRE content →
      f.existsSync (snippetResolvedPath srcDir filePath (capOr r 1)) = false →
      ∃ pre post : List Char,
        (processSnippets f srcDir filePath content st).1.data =
          pre ++ r.whole.data ++ post) := by
  refine ⟨?_, ?_, ?_, ?_⟩
  · intro f srcDir filePath stripFm next st m m1 hm hex
    exact includeStep_missing f srcDir filePath stripFm next st m m1 hm hex
  · intro f srcDir filePath st m rawPath hm hex
    exact snippetStep_missing f srcDir filePath st m rawPath hm hex
  · intro f srcDir filePath stripFm fuel content st r hmem hex
    simp only [processIncludes]
    refine renderSegs_dir_output _ r r.whole ?_ _ st hmem
    intro st'
    by_cases h0 : capOr r 1 = ""
    · rw [h0]
      rfl
    · rw [includeStep_missing f srcDir filePath stripFm _ st' r.whole (capOr r 1) h0 hex]
  · intro f srcDir filePath content st r hmem hex
    simp only [processSnippets]
    refine renderSegs_dir_output _ r r.whole ?_ _ st hmem
    intro st'
    by_cases h0 : capOr r 1 = ""
    · rw [h0]
      rfl
    · rw [snippetStep_missing f srcDir filePath st' r.whole (capOr r 1) h0 hex]

/-- Witness for claim C1 on a concrete missing include target. -/
theorem claim_C1_witness :
    includeStep fsFive "docs" "docs/guide.md" true (fun c st => (c, st)) st0
        "<!--@include: ./missing.md-->" "./missing.md" =
      ("<!--@include: ./missing.md-->",
        ⟨st0.includes,
          st0.warnings ++ [includeWarnMissing (stripRegionRange "./missing.md").1]⟩) :=
  claim_C1.1 fsFive "docs" "docs/guide.md" true (fun c st => (c, st)) st0
    "<!--@include: ./missing.md-->" "./missing.md" (by decide) (by decide)

/-- Claim C2: a snippet line-spec is metadata only: over an existing file the
emitted block body is the (possibly region-extracted) file content for any
value of the `lines` token, which appears only in the info string; concretely
the five-line example yields a block tagged `js{2-4}` holding all five lines,
while the include range `{2,4}` over the same file slices to lines 2-4. -/
theorem claim_C2 :
    (∀ (f : FS) (srcDir filePath : String) (st : PState) (m rawPath : String)
      (atPresent : Bool) (tok : PathTokens) (lns : String),
      f.existsSync (snippetPathOf srcDir filePath atPresent tok) = true →
      snippetRender f srcDir filePath st m rawPath atPresent { tok with lines := lns } =
        ("```" ++ buildInfo { tok with lines := lns } ++ "\n" ++
            snippetBody f (snippetPathOf srcDir filePath atPresent tok) tok.region ++
            "\n```",
          ⟨st.includes ++ [snippetPathOf srcDir filePath atPresent tok], st.warnings⟩)) ∧
    (processSnippets fsFive "docs" "docs/guide.md" "<<< @/example.js{2-4}" st0 =
      ("```js{2-4}\nl1\nl2\nl3\nl4\nl5\n```", ⟨["docs/example.js"], []⟩)) ∧
    (processIncludes fsFive "docs" "docs/guide.md" true 2
        "<!--@include: ./example.js{2,4}-->" st0 =
      ("l2\nl3\nl4", ⟨["docs/example.js"], []⟩)) := by
  refine ⟨?_, by decide, by decide⟩
  intro f srcDir filePath st m rawPath atPresent tok lns hex
  cases tok
  simp only [snippetRender, snippetPathOf, snippetBody] at hex ⊢
  simp [hex]

/-- Witness for claim C2 on the concrete five-line file. -/
theorem claim_C2_witness :
    snippetRender fsFive "docs" "docs/guide.md" st0 "<<< @/example.js{2-4}"
        "@/example.js{2-4}" true
        { filepath := "/example.js", extension := "js", region := "", lines := "2-4",
          lang := "", attrs := "", title := "" } =
      ("```" ++
          buildInfo
            { filepath := "/example.js", extension := "js", region := "", lines := "2-4",
              lang := "", attrs := "", title := "" } ++ "\n" ++
          snippetBody fsFive
            (snippetPathOf "docs" "docs/guide.md" true
              { filepath := "/example.js", extension := "js", region := "", lines := "",
                lang := "", attrs := "", title := "" }) "" ++ "\n```",
        ⟨st0.includes ++
            [snippetPathOf "docs" "docs/guide.md" true
              { filepath := "/example.js", extension := "js", region := "", lines := "",
                lang := "", attrs := "", title := "" }],
          st0.warnings⟩) :=
  claim_C2.1 fsFive "docs" "docs/guide.md" st0 "<<< @/example.js{2-4}" "@/example.js{2-4}"
    true
    { filepath := "/example.js", extension := "js", region := "", lines := "",
      lang := "", attrs := "", title := "" } "2-4" (by decide)

/-- Claim C4: with both a region token and a trailing range, the include
resolver extracts the region first and applies the range slice to the
region-extracted text; concretely, the range `{1,1}` after a region starting
at file line 4 selects the region's first line, not the file's. -/
theorem claim_C4 :
    (∀ (f : FS) (srcDir filePath : String) (stripFm : Bool)
      (next : String → PState → String × PState) (st : PState) (m m1 m1s : String)
      (rng rg : MatchResult) (rd : RegionData),
      m1 ≠ "" →
      stripRegionRange m1 = (m1s, some rng, some rg) →
      f.existsSync (resolveIncludePath srcDir filePath m1s) = true →
      findRegion (splitLinesRN (f.readFileSync (resolveIncludePath srcDir filePath m1s)))
        (strDrop rg.whole 1) = some rd →
      includeStep f srcDir filePath stripFm next st m m1 =
        next
          (rangeSlice
            (joinWith "\n"
              (((splitLinesRN
                  (f.readFileSync (resolveIncludePath srcDir filePath m1s))).drop
                    rd.start).take (rd.endIdx - rd.start)))
            (capOr rng 1) (capOr rng 2))
          ⟨st.includes ++ [resolveIncludePath srcDir filePath m1s], st.warnings⟩) ∧
    (processIncludes fsRegionRange "docs" "docs/guide.md" true 2
        "<!--@include: ./f.txt#r{1,1}-->" st0 = ("AAA", ⟨["docs/f.txt"], []⟩)) := by
  refine ⟨?_, by decide⟩
  intro f srcDir filePath stripFm next st m m1 m1s rng rg rd hm hsrr hex hfr
  have hlen := string_length_ne_zero hm
  simp only [includeStep, hlen, if_false, hsrr, hex, if_true, includeExpand, hfr,
    Option.isSome_some, Bool.or_self, Bool.not_true, Bool.false_and, Bool.false_eq_true,
    List.append_nil]

/-- Witness for claim C4 on the concrete region-and-range include. -/
theorem claim_C4_witness :
    includeStep fsRegionRange "docs" "docs/guide.md" true (fun c st => (c, st)) st0
        "<!--@include: ./f.txt#r{1,1}-->x" "./f.txt#r{1,1}" =
      (fun c st => (c, st))
        (rangeSlice
          (joinWith "\n"
            (((splitLinesRN
                (fsRegionRange.readFileSync
                  (resolveIncludePath "docs" "docs/guide.md" "./f.txt"))).drop 3).take
              (5 - 3)))
          (capOr ⟨9, 14, "{1,1}", [none, some "1", some "1", none, none, none, none, none]⟩ 1)
          (capOr ⟨9, 14, "{1,1}", [none, some "1", some "1", none, none, none, none, none]⟩ 2))
        ⟨st0.includes ++ [resolveIncludePath "docs" "docs/guide.md" "./f.txt"],
          st0.warnings⟩ := by
  refine claim_C4.1 fsRegionRange "docs" "docs/guide.md" true (fun c st => (c, st)) st0
    "<!--@include: ./f.txt#r{1,1}-->x" "./f.txt#r{1,1}" "./f.txt"
    ⟨9, 14, "{1,1}", [none, some "1", some "1", none, none, none, none, none]⟩
    ⟨7, 9, "#r", [none, some "#r", none, none, none, none, none, none]⟩
    ⟨(markers.get? 0).getD ⟨.eps, .eps⟩, 3, 5⟩ (by decide) (by decide) (by decide) ?_
  rfl

/-- Claim C6: the include range is a 1-indexed inclusive line slice with each
bound independently optional: the slice of the resolver keeps exactly the
elements from position `s` to `e` inclusive, an open end runs to the last
line, both open keeps everything; concretely `{2,4}` on the five-line file
yields lines 2-4 and `{2,}` yields lines 2-5. -/
theorem claim_C6 :
    (∀ (α : Type) (ls : List α) (s e : Nat), 1 ≤ s →
      jsSlice ls (some (Int.ofNat s - 1)) (some (Int.ofNat e)) =
        (ls.drop (s - 1)).take (e + 1 - s)) ∧
    (∀ (α : Type) (ls : List α) (s : Nat), 1 ≤ s →
      jsSlice ls (some (Int.ofNat s - 1)) none = ls.drop (s - 1)) ∧
    (∀ (α : Type) (ls : List α), jsSlice ls none none = ls) ∧
    (processIncludes fsFive "docs" "docs/guide.md" true 2
        "<!--@include: ./example.js{2,4}-->" st0 =
      ("l2\nl3\nl4", ⟨["docs/example.js"], []⟩)) ∧
    (processIncludes fsFive "docs" "docs/guide.md" true 2
        "<!--@include: ./example.js{2,}-->" st0 =
      ("l2\nl3\nl4\nl5", ⟨["docs/example.js"], []⟩)) := by
  refine ⟨?_, ?_, ?_, by decide, by decide⟩
  · intro α ls s e hs
    simp only [jsSlice, Int.ofNat_eq_coe]
    have hcast : (s : Int) - 1 = ((s - 1 : Nat) : Int) := by omega
    rw [if_neg (by omega : ¬((s : Int) - 1 < 0)), if_neg (by omega : ¬((e : Int) < 0)),
      hcast]
    have ha : (min ((s - 1 : Nat) : Int) ((ls.length : Nat) : Int)).toNat =
        min (s - 1) ls.length := by omega
    have hb : (min (e : Int) ((ls.length : Nat) : Int)).toNat = min e ls.length := by omega
    rw [ha, hb, List.drop_take]
    by_cases h : s - 1 ≤ ls.length
    · rw [Nat.min_eq_left h]
      by_cases he : e ≤ ls.length
      · rw [Nat.min_eq_left he]
        congr 1
        omega
      · have hmine : min e ls.length = ls.length := Nat.min_eq_right (by omega)
        rw [hmine]
        rw [List.take_of_length_le (le_of_eq (List.length_drop _ _)),
          List.take_of_length_le (by rw [List.length_drop]; omega)]
    · have hmin : min (s - 1) ls.length = ls.length := Nat.min_eq_right (by omega)
      rw [hmin, List.drop_length, List.drop_eq_nil_of_le (by omega)]
      simp
  · intro α ls s hs
    simp only [jsSlice, Int.ofNat_eq_coe]
    have hcast : (s : Int) - 1 = ((s - 1 : Nat) : Int) := by omega
    rw [if_neg (by omega : ¬((s : Int) - 1 < 0)), hcast]
    have ha : (min ((s - 1 : Nat) : Int) ((ls.length : Nat) : Int)).toNat =
        min (s - 1) ls.length := by omega
    rw [ha, List.take_length]
    by_cases h : s - 1 ≤ ls.length
    · rw [Nat.min_eq_left h]
    · have hmin : min (s - 1) ls.length = ls.length := Nat.min_eq_right (by omega)
      rw [hmin, List.drop_length]
      exact (List.drop_eq_nil_of_le (by omega)).symm
  · intro α ls
    simp [jsSlice]

/-- Witness for claim C6 at a concrete slice. -/
theorem claim_C6_witness :
    jsSlice ["a", "b", "c", "d", "e"] (some (Int.ofNat 2 - 1)) (some (Int.ofNat 4)) =
      ((["a", "b", "c", "d", "e"] : List String).drop (2 - 1)).take (4 + 1 - 2) :=
  claim_C6.1 String ["a", "b", "c", "d", "e"] 2 4 (by decide)

/-- Claim C10: an existing include target whose named region is not found is
replaced by the full file content with a warning and its path recorded; an
existing snippet target with an unfound region silently emits the full
normalized content in its fenced block and records the path. -/
theorem claim_C10 :
    (∀ (f : FS) (srcDir filePath : String) (stripFm : Bool)
      (next : String → PState → String × PState) (st : PState) (m m1 m1s : String)
      (rg : MatchResult),
      m1 ≠ "" →
      stripRegionRange m1 = (m1s, none, some rg) →
      f.existsSync (resolveIncludePath srcDir filePath m1s) = true →
      findRegion (splitLinesRN (f.readFileSync (resolveIncludePath srcDir filePath m1s)))
        (strDrop rg.whole 1) = none →
      includeStep f srcDir filePath stripFm next st m m1 =
        next (f.readFileSync (resolveIncludePath srcDir filePath m1s))
          ⟨st.includes ++ [resolveIncludePath srcDir filePath m1s],
            st.warnings ++
              [regionWarnMsg rg.whole (resolveIncludePath srcDir filePath m1s)]⟩) ∧
    (∀ (f : FS) (srcDir filePath : String) (st : PState) (m rawPath : String)
      (tok : PathTokens),
      rawPath ≠ "" →
      rawPathToToken (if strStartsWith (strTrim rawPath) "@" = true
        then strDrop (strTrim rawPath) 1 else strTrim rawPath) = tok →
      tok.region ≠ "" →
      f.existsSync
        (snippetPathOf srcDir filePath (strStartsWith (strTrim rawPath) "@") tok) = true →
      findRegion
        (splitOnChar '\n' (normalizeEOL (f.readFileSync
          (snippetPathOf srcDir filePath (strStartsWith (strTrim rawPath) "@") tok))))
        (strDrop tok.region 1) = none →
      snippetStep f srcDir filePath st m rawPath =
        ("```" ++ buildInfo tok ++ "\n" ++
            normalizeEOL (f.readFileSync
              (snippetPathOf srcDir filePath (strStartsWith (strTrim rawPath) "@") tok)) ++
            "\n```",
          ⟨st.includes ++
              [snippetPathOf srcDir filePath (strStartsWith (strTrim rawPath) "@") tok],
            st.warnings⟩)) ∧
    (processIncludes fsTwoLines "docs" "docs/guide.md" true 2
        "<!--@include: ./g.md#nope-->" st0 =
      ("hello\nworld",
        ⟨["docs/g.md"], ["[remark-include] Region '#nope' not found in docs/g.md"]⟩)) ∧
    (processSnippets fsTwoLines "docs" "docs/guide.md" "<<< ./g.md#nope" st0 =
      ("```md\nhello\nworld\n```", ⟨["docs/g.md"], []⟩)) := by
  refine ⟨?_, ?_, by decide, by decide⟩
  · intro f srcDir filePath stripFm next st m m1 m1s rg hm hsrr hex hfr
    have hlen := string_length_ne_zero hm
    simp only [includeStep, hlen, if_false, hsrr, hex, if_true, includeExpand, hfr,
      Option.isSome_some, Option.isSome_none, Bool.or_true, Bool.true_or, Bool.not_true,
      Bool.false_and, Bool.false_eq_true, List.append_nil]
  · intro f srcDir filePath st m rawPath tok hm htok hrg hex hfr
    have hlen := string_length_ne_zero hm
    simp only [snippetStep, hlen, if_false, htok, snippetRender, hex, if_true,
      snippetBody, applySnippetRegion, hrg, hfr]

/-- Witness for claim C10 on the concrete two-line file without the named
region. -/
theorem claim_C10_witness :
    includeStep fsTwoLines "docs" "docs/guide.md" true (fun c st => (c, st)) st0
        "<!--@include: ./g.md#nope-->x" "./g.md#nope" =
      (fun c st => (c, st))
        (fsTwoLines.readFileSync (resolveIncludePath "docs" "docs/guide.md" "./g.md"))
        ⟨st0.includes ++ [resolveIncludePath "docs" "docs/guide.md" "./g.md"],
          st0.warnings ++
            [regionWarnMsg
              (⟨6, 11, "#nope", [none, some "#nope", none, none, none, none, none, none]⟩ :
                MatchResult).whole
              (resolveIncludePath "docs" "docs/guide.md" "./g.md")]⟩ :=
  claim_C10.1 fsTwoLines "docs" "docs/guide.md" true (fun c st => (c, st)) st0
    "<!--@include: ./g.md#nope-->x" "./g.md#nope" "./g.md"
    ⟨6, 11, "#nope", [none, some "#nope", none, none, none, none, none, none]⟩
    (by decide) (by decide) (by decide) (by rfl)


/-- A found match with an existing target puts the resolved path into the
dependency list of the include resolver. -/
theorem processIncludes_member (f : FS) (srcDir filePath : String) (stripFm : Bool) :
    ∀ (fuel : Nat) (content : String) (st : PState) (r : MatchResult) (p : String),
      Seg.dir r ∈ segmentsOf includesRE content →
      capOr r 1 ≠ "" →
      resolveIncludePath srcDir filePath (stripRegionRange (capOr r 1)).1 = p →
      f.existsSync p = true →
      p ∈ (processIncludes f srcDir filePath stripFm (fuel + 1) content st).2.includes := by
  intro fuel content st r p hmem h0 hres hex
  simp only [processIncludes]
  refine renderSegs_dir_includes _
    (fun st r x hx =>
      includeStep_includes_mono f srcDir filePath stripFm _
        (fun c st x hx =>
          processIncludes_includes_mono f srcDir filePath stripFm fuel c st x hx)
        st _ _ x hx)
    r p ?_ _ st hmem
  intro st'
  rw [includeStep_exists f srcDir filePath stripFm _ st' r.whole (capOr r 1) h0
    (by rw [hres]; exact hex)]
  refine processIncludes_includes_mono f srcDir filePath stripFm fuel _ _ p ?_
  rw [hres]
  exact List.mem_append_right _ (List.mem_singleton.mpr rfl)

/-- A match whose target exists and itself carries a matching directive puts
the inner resolved path into the dependency list as well. -/
theorem processIncludes_member_deep (f : FS) (srcDir filePath : String) (stripFm : Bool) :
    ∀ (fuel : Nat) (content : String) (st : PState) (rA rB : MatchResult) (pA pB : String),
      Seg.dir rA ∈ segmentsOf includesRE content →
      capOr rA 1 ≠ "" →
      resolveIncludePath srcDir filePath (stripRegionRange (capOr rA 1)).1 = pA →
      f.existsSync pA = true →
      Seg.dir rB ∈ segmentsOf includesRE
        (includeContentOf f srcDir filePath stripFm (capOr rA 1)) →
      capOr rB 1 ≠ "" →
      resolveIncludePath srcDir filePath (stripRegionRange (capOr rB 1)).1 = pB →
      f.existsSync pB = true →
      pB ∈ (processIncludes f srcDir filePath stripFm (fuel + 2) content st).2.includes := by
  intro fuel content st rA rB pA pB hmemA h0A hresA hexA hmemB h0B hresB hexB
  have hshape : fuel + 2 = (fuel + 1) + 1 := rfl
  rw [hshape]
  simp only [processIncludes]
  refine renderSegs_dir_includes _
    (fun st r x hx =>
      includeStep_includes_mono f srcDir filePath stripFm _
        (fun c st x hx =>
          processIncludes_includes_mono f srcDir filePath stripFm (fuel + 1) c st x hx)
        st _ _ x hx)
    rA pB ?_ _ st hmemA
  intro st'
  rw [includeStep_exists f srcDir filePath stripFm _ st' rA.whole (capOr rA 1) h0A
    (by rw [hresA]; exact hexA)]
  exact processIncludes_member f srcDir filePath stripFm fuel _ _ rB pB hmemB h0B hresB hexB

/-- One walker step preserves membership in the dependency list. -/
theorem remarkIncludeNode_includes_mono (f : FS) (srcDir : String) (stripFm : Bool)
    (filePath : String) (fuel : Nat) :
    ∀ (st : PState) (n : MNode) (x : String),
      x ∈ st.includes →
      x ∈ (remarkIncludeNode f srcDir stripFm filePath fuel st n).2.includes := by
  intro st n x hx
  cases n with
  | html v =>
    simp only [remarkIncludeNode]
    by_cases h : reTest includesRE v = true
    · simp only [h, if_true]
      exact processIncludes_includes_mono f srcDir filePath stripFm fuel v st x hx
    · simp only [Bool.not_eq_true] at h
      simpa [h] using hx
  | text v =>
    simp only [remarkIncludeNode]
    by_cases h : reTest snippetRE v = true
    · simp only [h, if_true]
      exact processSnippets_includes_mono f srcDir filePath v st x hx
    · simp only [Bool.not_eq_true] at h
      simpa [h] using hx
  | other => simpa [remarkIncludeNode] using hx

/-- The walker only grows the dependency list. -/
theorem remarkIncludeWalk_includes_mono (f : FS) (srcDir : String) (stripFm : Bool)
    (filePath : String) (fuel : Nat) :
    ∀ (doc : List MNode) (st : PState) (x : String),
      x ∈ st.includes →
      x ∈ (remarkIncludeWalk f srcDir stripFm filePath fuel doc st).2.includes := by
  intro doc
  induction doc with
  | nil => intro st x hx; simpa [remarkIncludeWalk] using hx
  | cons n rest ih =>
    intro st x hx
    simp only [remarkIncludeWalk]
    exact ih _ x (remarkIncludeNode_includes_mono f srcDir stripFm filePath fuel st n x hx)

/-- If some document node is the HTML node `v` and processing that node
always records `p`, the walker's final dependency list contains `p`. -/
theorem remarkIncludeWalk_hit (f : FS) (srcDir : String) (stripFm : Bool)
    (filePath : String) (fuel : Nat) (v : String) (p : String)
    (hnode : ∀ st,
      p ∈ (remarkIncludeNode f srcDir stripFm filePath fuel st (MNode.html v)).2.includes) :
    ∀ (doc : List MNode) (st : PState),
      MNode.html v ∈ doc →
      p ∈ (remarkIncludeWalk f srcDir stripFm filePath fuel doc st).2.includes := by
  intro doc
  induction doc with
  | nil => intro st h; cases h
  | cons n rest ih =>
    intro st h
    rcases List.mem_cons.mp h with heq | hmem
    · cases heq
      simp only [remarkIncludeWalk]
      exact remarkIncludeWalk_includes_mono f srcDir stripFm filePath fuel rest _ p
        (hnode st)
    · simp only [remarkIncludeWalk]
      exact ih _ hmem

/-- Claim C3: when a document node carries an include directive resolving to
an existing file `pA`, and `pA`'s expanded content carries a directive
resolving to an existing file `pB`, the dependency list the walker attaches
to the document contains both resolved paths. -/
theorem claim_C3 :
    ∀ (f : FS) (srcDir filePath : String) (stripFm : Bool) (fuel : Nat)
      (doc : List MNode) (v : String) (rA rB : MatchResult) (pA pB : String),
      MNode.html v ∈ doc →
      Seg.dir rA ∈ segmentsOf includesRE v →
      capOr rA 1 ≠ "" →
      resolveIncludePath srcDir filePath (stripRegionRange (capOr rA 1)).1 = pA →
      f.existsSync pA = true →
      Seg.dir rB ∈ segmentsOf includesRE
        (includeContentOf f srcDir filePath stripFm (capOr rA 1)) →
      capOr rB 1 ≠ "" →
      resolveIncludePath srcDir filePath (stripRegionRange (capOr rB 1)).1 = pB →
      f.existsSync pB = true →
      pA ∈ (remarkInclude f srcDir stripFm (fuel + 2) filePath doc).2 ∧
      pB ∈ (remarkInclude f srcDir stripFm (fuel + 2) filePath doc).2 := by
  intro f srcDir filePath stripFm fuel doc v rA rB pA pB hdoc hA h0A hresA hexA hB h0B
    hresB hexB
  have htest : reTest includesRE v = true := seg_dir_reTest hA
  constructor
  · simp only [remarkInclude]
    refine remarkIncludeWalk_hit f srcDir stripFm filePath (fuel + 2) v pA ?_ doc _ hdoc
    intro st
    simp only [remarkIncludeNode, htest, if_true]
    exact processIncludes_member f srcDir filePath stripFm (fuel + 1) v st rA pA hA h0A
      hresA hexA
  · simp only [remarkInclude]
    refine remarkIncludeWalk_hit f srcDir stripFm filePath (fuel + 2) v pB ?_ doc _ hdoc
    intro st
    simp only [remarkIncludeNode, htest, if_true]
    exact processIncludes_member_deep f srcDir filePath stripFm fuel v st rA rB pA pB hA
      h0A hresA hexA hB h0B hresB hexB

/-- Witness for claim C3 on the concrete nested file system where the
document includes `a.md` and `a.md` includes `b.md`. -/
theorem claim_C3_witness :
    "docs/a.md" ∈
      (remarkInclude fsNested "docs" true (0 + 2) "docs/guide.md"
        [MNode.html "doc <!--@include: ./a.md--> end"]).2 ∧
    "docs/b.md" ∈
      (remarkInclude fsNested "docs" true (0 + 2) "docs/guide.md"
        [MNode.html "doc <!--@include: ./a.md--> end"]).2 :=
  claim_C3 fsNested "docs" "docs/guide.md" true 0
    [MNode.html "doc <!--@include: ./a.md--> end"]
    "doc <!--@include: ./a.md--> end"
    ⟨4, 27, "<!--@include: ./a.md-->",
      [none, some "./a.md", none, none, none, none, none, none]⟩
    ⟨6, 29, "<!--@include: ./b.md-->",
      [none, some "./b.md", none, none, none, none, none, none]⟩
    "docs/a.md" "docs/b.md"
    (by decide) (by decide) (by decide) (by decide) (by decide) (by decide) (by decide)
    (by decide) (by decide)


theorem some_beq_some (a b : String) : (some a == some b) = (a == b) := rfl

theorem none_beq_some (b : String) : ((none : Option String) == some b) = false := rfl

/-- The counter scan of `findRegion` agrees with the claim's scan over
index-annotated lines whenever the counter is positive (as it always is,
starting from one). -/
theorem findRegionScan_eq (mp : MarkerPair) (name : String) (rstart : Nat) :
    ∀ (rest : List String) (i counter : Nat), 1 ≤ counter →
      findRegionScan mp name rstart rest i counter =
        findRegionSpecScan mp name rstart (List.enumFrom i rest) counter := by
  intro rest
  induction rest with
  | nil => intro i counter _; rfl
  | cons l rest ih =>
    intro i counter hc
    simp only [List.enumFrom, findRegionScan, findRegionSpecScan]
    by_cases hs : (startName mp l == some name) = true
    · simp only [hs, if_true]
      exact ih (i + 1) (counter + 1) (by omega)
    · simp only [Bool.not_eq_true] at hs
      simp only [hs, Bool.false_eq_true, if_false]
      cases he : endName mp l with
      | none =>
        simp only [none_beq_some, Bool.or_self, Bool.false_eq_true, if_false]
        exact ih (i + 1) counter hc
      | some e =>
        simp only [some_beq_some]
        by_cases hen : (e == name || e == "") = true
        · simp only [hen, if_true]
          by_cases h1 : counter = 1
          · subst h1
            simp
          · have h10 : ¬(counter - 1 = 0) := by omega
            simp only [h1, h10, if_false]
            exact ih (i + 1) (counter - 1) (by omega)
        · simp only [Bool.not_eq_true] at hen
          simp only [hen, Bool.false_eq_true, if_false]
          exact ih (i + 1) counter hc

/-- The first phase of `findRegion` finds the first line index whose start
marker of some dialect captures the name, locking in the first such dialect
of the table. -/
theorem findRegionStart_eq (name : String) :
    ∀ (lines : List String) (k : Nat),
      findRegionStart name lines k =
        match firstIdxWhere
            (fun l => (markers.find? (fun mp => startName mp l == some name)).isSome)
            lines with
        | none => none
        | some i =>
          ((lines.get? i).bind
            (fun l => markers.find? (fun mp => startName mp l == some name))).map
            (fun mp => (mp, k + i + 1)) := by
  intro lines
  induction lines with
  | nil => intro k; rfl
  | cons l rest ih =>
    intro k
    simp only [findRegionStart, firstIdxWhere]
    by_cases hi : (markers.find? (fun mp => startName mp l == some name)).isSome = true
    · obtain ⟨mp, hf⟩ := Option.isSome_iff_exists.mp hi
      simp [hf]
    · have hf : markers.find? (fun mp => startName mp l == some name) = none :=
        Option.not_isSome_iff_eq_none.mp hi
      simp only [hf, Option.isSome_none, Bool.false_eq_true, if_false]
      cases hfi : firstIdxWhere
          (fun l => (markers.find? (fun mp => startName mp l == some name)).isSome)
          rest with
      | none => simp [ih (k + 1), hfi]
      | some j =>
        have harr : k + 1 + j + 1 = k + (j + 1) + 1 := by omega
        simp only [ih (k + 1), hfi, Option.map_some, List.get?]
        rw [harr]
        simp [List.get?]

/-- Claim C5: the region locator equals, on every line sequence and region
name, the locator the claim describes: first start marker of any dialect with
the captured name, then the nesting-counter scan with same-dialect same-name
increments, matching-or-empty-name end-marker decrements, found exactly at
counter zero, not found without a closing marker. -/
theorem claim_C5 : ∀ (lines : List String) (name : String),
    findRegion lines name = findRegionSpec lines name := by
  intro lines name
  simp only [findRegion, findRegionSpec]
  rw [findRegionStart_eq]
  cases hfi : firstIdxWhere
      (fun l => (markers.find? (fun mp => startName mp l == some name)).isSome) lines with
  | none => rfl
  | some i =>
    simp only []
    cases hg : (lines.get? i).bind
        (fun l => markers.find? (fun mp => startName mp l == some name)) with
    | none => rfl
    | some mp =>
      simp only [Option.map_some]
      have h0 : 0 + i + 1 = i + 1 := by omega
      rw [h0]
      exact findRegionScan_eq mp name (i + 1) (lines.drop (i + 1)) (i + 1) 1 (by omega)


end VPLLMS
